import Mathlib

/-!
Verification development for the MelodiJS reactive UI runtime.

The repository consists of a fine-grained reactivity engine and template
walker (`src/melodijs.ts`) and a hash-based router (`src/router.ts`, with a
second revision of the same class in the repository that additionally
supports route transitions).  This file gives a shallow embedding of the
parts of that code relevant to the verified properties:

* strings are modelled as `List Char` (`Str`), with a `splitOnChar` that
  mirrors JavaScript `String.prototype.split` for a one-character
  separator (`''.split(c) = ['']`, separators at the ends produce empty
  fragments);
* JavaScript objects used as string maps are modelled as association
  lists with in-place update (`setKey`), matching object-assignment
  semantics (an existing key keeps its position, a new key is appended);
* the reactivity engine is modelled as a state machine over an explicit
  store of signals and effects, with effect bodies drawn from a small
  language (`Body`) of signal reads and nested-effect creation — exactly
  the operations the verified properties exercise;
* the keyed `v-for` reconciler is modelled over a parent child-node list
  together with the key → element map, with `insertBefore` following the
  DOM pre-insertion algorithm (inserting a node before itself re-targets
  to its next sibling; inserting a node that has a parent first removes
  it), and a mutation trace recording every removal / insertion / clone.
-/

set_option autoImplicit false

/-- Strings are modelled as lists of characters. -/
abbrev Str := List Char

/-- Conversion from Lean string literals to the `Str` model. -/
def str (s : String) : Str := s.toList

/-- JavaScript `String.prototype.split` with a single-character separator:
`splitOnChar c s` never returns `[]`; the empty string splits to `[[]]`,
and separators at either end contribute empty fragments. -/
def splitOnChar (c : Char) : List Char → List (List Char)
  | [] => [[]]
  | a :: rest =>
    match splitOnChar c rest with
    | [] => [[]]
    | y :: ys => if a = c then [] :: y :: ys else (a :: y) :: ys

/-- `String.prototype.replace(/\/+/g, '/')`: collapse each maximal run of
slashes to a single slash. -/
def collapseSlashes : List Char → List Char
  | [] => []
  | a :: rest =>
    let tail := collapseSlashes rest
    if a = '/' ∧ tail.head? = some '/' then tail else a :: tail

/-- `Array.prototype.join('/')` on a list of path segments. -/
def joinSlash (parts : List Str) : Str := List.intercalate ['/'] parts

/-- JavaScript object assignment `m[k] = v` on a string-keyed object
modelled as an association list: an existing key keeps its position and
gets the new value, a fresh key is appended. -/
def setKey : List (Str × Str) → Str → Str → List (Str × Str)
  | [], k, v => [(k, v)]
  | kv :: rest, k, v => if kv.1 = k then (k, v) :: rest else kv :: setKey rest k v

/-- Property lookup on the association-list model of a string-keyed
object. -/
def lookupQ : List (Str × Str) → Str → Option Str
  | [], _ => none
  | kv :: rest, k => if kv.1 = k then some kv.2 else lookupQ rest k

/-- `for (const key in routeParams) delete params[key]` from
`_matchRoute`'s backtracking: remove every listed key. -/
def deleteKeys (ps : List (Str × Str)) (keys : List Str) : List (Str × Str) :=
  ps.filter (fun kv => decide (kv.1 ∉ keys))

/-- Object spread `{ ...params, ...routeParams }`: the right operand's
entries are assigned into the left one in order. -/
def mergeParams (ps rp : List (Str × Str)) : List (Str × Str) :=
  rp.foldl (fun acc kv => setKey acc kv.1 kv.2) ps

/-- A route record from the router's `RouteDef` interface.  `children`
is `none` when the `children` field is absent; the code only ever tests
its presence (`!!route.children`), so `some []` models an explicitly
empty children array (which is truthy in JavaScript). -/
inductive RouteDef where
  | mk (path : Str) (comp : Nat) (children : Option (List RouteDef))

/-- The `path` field of a route record. -/
def RouteDef.path : RouteDef → Str
  | .mk p _ _ => p

/-- The component of a route record, identified by a numeric id. -/
def RouteDef.comp : RouteDef → Nat
  | .mk _ c _ => c

/-- The `children` field of a route record. -/
def RouteDef.children : RouteDef → Option (List RouteDef)
  | .mk _ _ cs => cs

/-- One loop iteration block of `_extractParams`: walk the pattern
segments in step with the path segments (`paths.head?` is
`pathParts[i]`, `none` standing for `undefined`); a segment starting
with `:` binds the corresponding path segment under the name after the
colon, a literal segment must be equal to it (comparison with
`undefined` fails, as in the source). -/
def extractLoop : List Str → List Str → List (Str × Str) → Option (List (Str × Str))
  | [], _, params => some params
  | pp :: pps, paths, params =>
    if pp.head? = some ':' then
      match paths.head? with
      | none => none
      | some q => extractLoop pps (paths.drop 1) (setKey params (pp.drop 1) q)
    else
      match paths.head? with
      | some q => if pp ≠ q then none else extractLoop pps (paths.drop 1) params
      | none => none

/-- The `patternParts.map((p, i) => p.startsWith(':') ? pathParts[i] : p)`
expression of `_extractParams`' prefix re-check, walking the two segment
lists in step. -/
def fullSegParts : List Str → List Str → List Str
  | [], _ => []
  | p :: ps, qs =>
    (if p.head? = some ':' then qs.headD [] else p) :: fullSegParts ps (qs.drop 1)

/-- `_extractParams(pattern, path, partial)` from the router (the flag is
called `childMode` here: it is set exactly when the route has children,
allowing the path to be longer than the pattern).  Returns the bound
parameters, or `none` when the pattern does not match. -/
def extractParams (pattern path : Str) (childMode : Bool) : Option (List (Str × Str)) :=
  let patternParts := (splitOnChar '/' pattern).filter (fun p => decide (p ≠ []))
  let pathParts := (splitOnChar '/' path).filter (fun p => decide (p ≠ []))
  if ¬childMode ∧ patternParts.length ≠ pathParts.length then none
  else if childMode ∧ pathParts.length < patternParts.length then none
  else
    match extractLoop patternParts pathParts [] with
    | none => none
    | some params =>
      if childMode ∧ patternParts.length < pathParts.length then
        let matchedSeg := joinSlash (pathParts.take patternParts.length)
        let fullSeg := joinSlash (fullSegParts patternParts pathParts)
        if matchedSeg ≠ fullSeg then none else some params
      else if ¬childMode ∧ patternParts.length ≠ pathParts.length then none
      else some params

/-- Full-path construction from `findMatch`:
`(parentPath + '/' + route.path)` with slash runs collapsed and a
trailing slash stripped unless the result is the root `/`. -/
def normalizeFull (parentPath rpath : Str) : Str :=
  let f := collapseSlashes (parentPath ++ '/' :: rpath)
  if f ≠ ['/'] ∧ f.getLast? = some '/' then f.dropLast else f

/-- The recursive `findMatch` closure of `_matchRoute`, with the mutable
`matched` / `params` variables threaded explicitly.  `variantA` selects
the revision in `src/router.ts`, which at a childless route additionally
requires the literal pattern string to equal the request path
(`fullPath === currentPath`) and otherwise pops the route and deletes
its parameters; the other revision of the file returns success as soon
as `_extractParams` matched a childless route.  The `fuel` argument
bounds the recursion depth (the source recursion is bounded by the
route-table size). -/
def findMatch (variantA : Bool) : Nat → List RouteDef → Str → Str →
    List RouteDef → List (Str × Str) → Bool × List RouteDef × List (Str × Str)
  | 0, _, _, _, matched, params => (false, matched, params)
  | _ + 1, [], _, _, matched, params => (false, matched, params)
  | fuel + 1, r :: rs, currentPath, parentPath, matched, params =>
    let fullPath := normalizeFull parentPath r.path
    match extractParams fullPath currentPath r.children.isSome with
    | none => findMatch variantA fuel rs currentPath parentPath matched params
    | some routeParams =>
      let matched1 := matched ++ [r]
      let params1 := mergeParams params routeParams
      match r.children with
      | some cs =>
        match findMatch variantA fuel cs currentPath fullPath matched1 params1 with
        | (true, m2, p2) => (true, m2, p2)
        | (false, m2, p2) =>
          findMatch variantA fuel rs currentPath parentPath
            m2.dropLast (deleteKeys p2 (routeParams.map Prod.fst))
      | none =>
        if variantA then
          if fullPath = currentPath then (true, matched1, params1)
          else
            findMatch variantA fuel rs currentPath parentPath
              matched1.dropLast (deleteKeys params1 (routeParams.map Prod.fst))
        else (true, matched1, params1)

/-- `_matchRoute` of the `src/router.ts` revision: run `findMatch` from
the route table with empty accumulators and return the `matched` chain
and merged `params` (the boolean result is discarded, as in the
source). -/
def matchRouteA (routes : List RouteDef) (path : Str) : List RouteDef × List (Str × Str) :=
  let r := findMatch true 100 routes path [] [] []
  (r.2.1, r.2.2)

/-- `_matchRoute` of the other revision of the router (the one that
declares route transitions): identical except that a childless route
matched by `_extractParams` is accepted immediately. -/
def matchRouteB (routes : List RouteDef) (path : Str) : List RouteDef × List (Str × Str) :=
  let r := findMatch false 100 routes path [] [] []
  (r.2.1, r.2.2)

/-- `_getCurrentPath`: the part of the location fragment before `?`,
defaulting to `/` when empty. -/
def getCurrentPath (hash : Str) : Str :=
  let p := (splitOnChar '?' hash).headD []
  if p = [] then str "/" else p

/-- One iteration of `_getCurrentQuery`'s `forEach`:
`const [key, value] = pair.split('=')`, and when the key is non-empty,
`query[decodeURIComponent(key)] = decodeURIComponent(value || '')`.
The host primitive `decodeURIComponent` is the parameter `dec`. -/
def queryStep (dec : Str → Str) (q : List (Str × Str)) (pair : Str) : List (Str × Str) :=
  let parts := splitOnChar '=' pair
  let key := parts.headD []
  if key = [] then q else setKey q (dec key) (dec ((parts.get? 1).getD []))

/-- `_getCurrentQuery`: take the part of the fragment after the first
`?`; when there is none (or it is empty, which is falsy) return the
empty mapping, otherwise fold the `&`-separated pairs into an object. -/
def getCurrentQuery (dec : Str → Str) (hash : Str) : List (Str × Str) :=
  match (splitOnChar '?' hash).get? 1 with
  | none => []
  | some qp => if qp = [] then [] else (splitOnChar '&' qp).foldl (queryStep dec) []

/-- The key a query pair contributes: the part before the first `=`,
decoded, or `none` when that raw key is empty (such pairs are skipped). -/
def pairKey (dec : Str → Str) (p : Str) : Option Str :=
  let key := (splitOnChar '=' p).headD []
  if key = [] then none else some (dec key)

/-- The value a query pair contributes: the part between the first and
second `=` (the empty string when there is no `=`), decoded. -/
def pairVal (dec : Str → Str) (p : Str) : Str :=
  dec (((splitOnChar '=' p).get? 1).getD [])

/-- The value contributed by the last pair of the list whose key is `K`,
if any: the specification-side characterisation of last-writer-wins
query parsing. -/
def lastBinding (dec : Str → Str) (K : Str) : List Str → Option Str
  | [] => none
  | p :: rest =>
    match lastBinding dec K rest with
    | some v => some v
    | none => if pairKey dec p = some K then some (pairVal dec p) else none

/-- The possible behaviours of a registered `beforeEach` hook on one
invocation: never call the continuation, call it with no argument, or
call it with a redirect path. -/
inductive HookAction where
  | stall
  | proceed
  | redirect (p : Str)
deriving DecidableEq

/-- The router's four reactive signals, as written by
`_handleRouteChange`. -/
structure RouterSig where
  route : Str
  matched : List RouteDef
  params : List (Str × Str)
  query : List (Str × Str)

/-- The body of the `next()` continuation in `_handleRouteChange` when
called with no argument: commit the pending navigation by writing all
four signals from the current location fragment.  `matchFn` stands for
`this._matchRoute` and `dec` for the host `decodeURIComponent`. -/
def commitNav (dec : Str → Str) (matchFn : Str → List RouteDef × List (Str × Str))
    (hash : Str) (_st : RouterSig) : RouterSig :=
  let newPath := getCurrentPath hash
  let mp := matchFn newPath
  { route := newPath, matched := mp.1, params := mp.2, query := getCurrentQuery dec hash }

/-- `_handleRouteChange`: compute the new path from the location
fragment, and either run the registered hook with
`(to = newPath, from = currentRoute())` or proceed directly.  A
`redirect` outcome models `next(path)`, which calls `push(path)`
(assigning the location fragment, which re-fires the handler) and
returns without committing; the pending fragment is returned alongside
the unchanged signals. -/
def handleRouteChange (dec : Str → Str) (matchFn : Str → List RouteDef × List (Str × Str))
    (hook : Option (Str → Str → HookAction)) (hash : Str) (st : RouterSig) :
    RouterSig × Option Str :=
  let newPath := getCurrentPath hash
  let act := match hook with
    | none => HookAction.proceed
    | some h => h newPath st.route
  match act with
  | .stall => (st, none)
  | .proceed => (commitNav dec matchFn hash st, none)
  | .redirect p => (st, some p)

/-- The `hashchange` re-trigger after a redirect: run
`_handleRouteChange`, and if it pushed a redirect fragment, run the
handler once more on that fragment. -/
def navigateTwice (dec : Str → Str) (matchFn : Str → List RouteDef × List (Str × Str))
    (hook : Option (Str → Str → HookAction)) (hash : Str) (st : RouterSig) :
    RouterSig × Option Str :=
  match handleRouteChange dec matchFn hook hash st with
  | (st1, some p) => handleRouteChange dec matchFn hook p st1
  | r => r

/-- JavaScript values as far as the reactivity engine inspects them:
primitives carry their value, objects and functions carry a reference
identity.  (`NaN` is outside the model: numbers are integers.) -/
inductive JSVal where
  | vnull
  | vundef
  | vbool (b : Bool)
  | vnum (n : Int)
  | vstr (s : Str)
  | vobj (r : Nat)
  | vfunc (r : Nat)
deriving DecidableEq

/-- The `write` guard of `createSignal`:
`next === null || (typeof next !== 'object' && typeof next !== 'function')`.
`null` has `typeof` `'object'` but is caught by the first disjunct;
objects (including arrays and proxies) and functions are the
non-primitives. -/
def isPrimitiveNext : JSVal → Bool
  | .vobj _ => false
  | .vfunc _ => false
  | _ => true

/-- Effect bodies: the closure language the verified properties
exercise.  `read sid k` reads signal `sid` and continues with its value;
`nest inner k` calls `createEffect(inner)` (which runs `inner`
immediately) and then continues with `k`. -/
inductive Body where
  | done
  | read (sid : Nat) (k : JSVal → Body)
  | nest (inner : Body) (k : Body)

/-- The state of one `MelodiReactive` instance: the `_currentEffect`
pointer, the signal store (values and per-signal subscriber sets,
allocated by index), the effect registry (each `createEffect` closure,
by index), and a trace of effect runs (`log` gains the effect's id each
time its `effect()` function is entered). -/
structure RS where
  cur : Option Nat
  sigCount : Nat
  vals : Nat → JSVal
  subs : Nat → List Nat
  effCount : Nat
  bodies : Nat → Body
  log : List Nat

/-- Pointwise update of an indexed store. -/
def updf {α : Type} (f : Nat → α) (i : Nat) (x : α) : Nat → α :=
  fun j => if j = i then x else f j

/-- `Set.prototype.add`: append the element unless already present
(JavaScript sets preserve insertion order and ignore duplicates). -/
def addSub (l : List Nat) (e : Nat) : List Nat :=
  if e ∈ l then l else l ++ [e]

/-- Run an effect body.  A `read` performs `createSignal`'s `read()`:
when `_currentEffect` is set it is added to the signal's subscriber set,
and the current value is returned to the continuation.  A `nest`
performs `createEffect(inner)`: a fresh effect id is allocated and its
`effect()` function runs immediately — it sets `_currentEffect` to the
new effect, runs the body, and in its `finally` clause sets
`_currentEffect` to `null` (not to the previous value). -/
def runBody : Body → RS → RS
  | .done, st => st
  | .read sid k, st =>
    match st.cur with
    | some e =>
      runBody (k (st.vals sid)) { st with subs := updf st.subs sid (addSub (st.subs sid) e) }
    | none => runBody (k (st.vals sid)) st
  | .nest inner k, st =>
    let eid := st.effCount
    let st1 : RS :=
      { st with effCount := eid + 1, bodies := updf st.bodies eid inner,
                cur := some eid, log := st.log ++ [eid] }
    runBody k { runBody inner st1 with cur := none }

/-- The effect creation performed inside another body's run (the `nest`
case of `runBody`, as a standalone definition): allocate the effect, run
it with `_currentEffect` set to it, then clear `_currentEffect` to
`null`. -/
def spawnEffect (inner : Body) (st : RS) : RS :=
  let eid := st.effCount
  let st1 : RS :=
    { st with effCount := eid + 1, bodies := updf st.bodies eid inner,
              cur := some eid, log := st.log ++ [eid] }
  { runBody inner st1 with cur := none }

/-- The `effect()` function of an already-registered effect, as invoked
by a signal notification: set `_currentEffect` to the effect, run its
closure, then set `_currentEffect` to `null`. -/
def runEffect (eid : Nat) (st : RS) : RS :=
  let st1 : RS := { st with cur := some eid, log := st.log ++ [eid] }
  { runBody (st.bodies eid) st1 with cur := none }

/-- `createEffect(fn)`: register the closure under a fresh id and run it
immediately. -/
def createEffect (b : Body) (st : RS) : RS :=
  let eid := st.effCount
  runEffect eid { st with effCount := eid + 1, bodies := updf st.bodies eid b }

/-- The dispose function returned by `createEffect`: its body is empty
(the source comments it as a placeholder that cannot unsubscribe the
effect), so it leaves the reactive state untouched. -/
def disposeEffect : RS → RS := id

/-- `createSignal(value)`: allocate a value cell and an empty subscriber
set; returns the new signal's id. -/
def createSignal (v : JSVal) (st : RS) : RS × Nat :=
  ({ st with sigCount := st.sigCount + 1,
             vals := updf st.vals st.sigCount v,
             subs := updf st.subs st.sigCount [] }, st.sigCount)

/-- `write(next)` of `createSignal`: when `next` is primitive and
strictly equal to the held value, return without any change; otherwise
store `next` and invoke the `run` of every subscribed effect in
insertion order.  (The source iterates the live `Set`; in this body
language a notified effect can only re-add existing members to the set
being iterated, so iterating the entry snapshot is equivalent.) -/
def writeSig (sid : Nat) (next : JSVal) (st : RS) : RS :=
  if isPrimitiveNext next = true ∧ st.vals sid = next then st
  else
    let st1 : RS := { st with vals := updf st.vals sid next }
    (st.subs sid).foldl (fun s e => runEffect e s) st1

/-- `Component.unmount`'s effect cleanup:
`this._effects.forEach(fn => fn())` — apply each stored dispose
function. -/
def unmountReactive (ds : List (RS → RS)) (st : RS) : RS :=
  ds.foldl (fun s d => d s) st

/-- Observation helper: the signals a body reads when executed against
the given value store, in read order (the dependency set of a run of the
effect under those values). -/
def readsOf : Body → (Nat → JSVal) → List Nat
  | .done, _ => []
  | .read sid k, v => sid :: readsOf (k (v sid)) v
  | .nest inner k, v => readsOf inner v ++ readsOf k v

/-- The empty reactive system. -/
def rs0 : RS :=
  { cur := none, sigCount := 0, vals := fun _ => JSVal.vundef, subs := fun _ => [],
    effCount := 0, bodies := fun _ => Body.done, log := [] }

/-- A document mutation performed by the keyed `v-for` reconciler:
`removeChild`, an `insertBefore` call, or a clone-and-walk of the
template for a new key. -/
inductive Mut where
  | removed (n : Nat)
  | inserted (n : Nat)
  | cloned (k : Nat)
deriving DecidableEq

/-- The state the keyed branch of `_handleVFor` operates on: the
parent's child-node list (node ids, including the `v-for` anchor
comment), the persistent `itemMap` from key to the tracked element, a
fresh-node allocator standing for clone-and-walk, and the trace of
document mutations performed so far. -/
structure RecState where
  children : List Nat
  itemMap : List (Nat × Nat)
  nextId : Nat
  muts : List Mut

/-- `node.nextSibling` within the parent's child list. -/
def nextSibling (children : List Nat) (n : Nat) : Option Nat :=
  match children.dropWhile (fun x => decide (x ≠ n)) with
  | _ :: x :: _ => some x
  | _ => none

/-- Insert `x` before the first occurrence of `ref` (at the end when
`ref` is `none`, i.e. a null reference node). -/
def insertList (children : List Nat) (x : Nat) (ref : Option Nat) : List Nat :=
  match ref with
  | none => children ++ [x]
  | some r =>
    children.takeWhile (fun c => decide (c ≠ r)) ++
      x :: children.dropWhile (fun c => decide (c ≠ r))

/-- `parent.insertBefore(x, ref)` following the DOM pre-insertion
algorithm: when the reference child is `x` itself the reference becomes
`x`'s next sibling, and a node that already has a parent is removed
before being inserted.  Every call is recorded in the mutation trace. -/
def domInsertBefore (st : RecState) (x : Nat) (ref : Option Nat) : RecState :=
  let ref2 := if ref = some x then nextSibling st.children x else ref
  let l := st.children.filter (fun c => decide (c ≠ x))
  { st with children := insertList l x ref2, muts := st.muts ++ [Mut.inserted x] }

/-- `parent.removeChild(x)`, recorded in the mutation trace. -/
def domRemoveChild (st : RecState) (x : Nat) : RecState :=
  { st with children := st.children.filter (fun c => decide (c ≠ x)),
            muts := st.muts ++ [Mut.removed x] }

/-- `Map.prototype.set` on the insertion-ordered key → element map. -/
def mapSet : List (Nat × Nat) → Nat → Nat → List (Nat × Nat)
  | [], k, v => [(k, v)]
  | kv :: rest, k, v => if kv.1 = k then (k, v) :: rest else kv :: mapSet rest k v

/-- `Map.prototype.get` (as an `Option`). -/
def mapFind : List (Nat × Nat) → Nat → Option Nat
  | [], _ => none
  | kv :: rest, k => if kv.1 = k then some kv.2 else mapFind rest k

/-- The keyed diff of `_handleVFor`, given the ordered keys of the new
list.  First every key present before but absent now is removed from the
document and the map; then the new key order is walked with a
`previousElement` cursor: a key already in the map reuses its element,
calling `insertBefore` unless the guard
`element.nextSibling !== previousElement.nextSibling` (or, for the first
key, `parent.firstChild !== element`) says it is in place; a new key
clones-and-walks the template (modelled as allocating a fresh node id)
and inserts it after the cursor. -/
def reconcileKeyed (st : RecState) (newKeys : List Nat) : RecState :=
  let oldKeys := st.itemMap.map Prod.fst
  let keysToRemove := oldKeys.filter (fun k => decide (k ∉ newKeys))
  let st1 := keysToRemove.foldl (fun s k =>
    match mapFind s.itemMap k with
    | some el =>
      let s2 := if el ∈ s.children then domRemoveChild s el else s
      { s2 with itemMap := s2.itemMap.filter (fun kv => decide (kv.1 ≠ k)) }
    | none => s) st
  (newKeys.foldl (fun (acc : RecState × Option Nat) key =>
    let s := acc.1
    let prev := acc.2
    match mapFind s.itemMap key with
    | some element =>
      let s2 := match prev with
        | some p =>
          if nextSibling s.children element ≠ nextSibling s.children p then
            domInsertBefore s element (nextSibling s.children p)
          else s
        | none =>
          if s.children.head? ≠ some element then
            domInsertBefore s element s.children.head?
          else s
      (s2, some element)
    | none =>
      let fresh := s.nextId
      let s1 : RecState := { s with nextId := s.nextId + 1, muts := s.muts ++ [Mut.cloned key] }
      let s2 := match prev with
        | some p => domInsertBefore s1 fresh (nextSibling s1.children p)
        | none => domInsertBefore s1 fresh s1.children.head?
      ({ s2 with itemMap := mapSet s2.itemMap key fresh }, some fresh)) (st1, none)).1

/-- The route table of the exact-leaf matching property:
`[{path:'/', component:Home}, {path:'/user/:id', component:User}]`
with `Home = 1`, `User = 2`. -/
def routesUser : List RouteDef :=
  [RouteDef.mk (str "/") 1 none, RouteDef.mk (str "/user/:id") 2 none]

/-- The nested route table of the backtracking property:
`[{path:'/admin', component:Admin, children:[{path:'users', component:AdminUsers}]}]`
with `Admin = 1`, `AdminUsers = 2`. -/
def routesAdmin : List RouteDef :=
  [RouteDef.mk (str "/admin") 1 (some [RouteDef.mk (str "users") 2 none])]

/-- Conditional-dependency scenario: signal `0` holds `true`, signal `1`
holds `0`, and the effect reads signal `1` only when signal `0` is
`true`. -/
def condBody : Body :=
  Body.read 0 (fun v => if v = JSVal.vbool true then Body.read 1 (fun _ => Body.done) else Body.done)

/-- State after creating both signals and the conditional effect (the
effect's first run reads signals `0` and `1`). -/
def condSetup : RS :=
  createEffect condBody (createSignal (JSVal.vnum 0) (createSignal (JSVal.vbool true) rs0).1).1

/-- State after writing `false` to signal `0`: the effect re-runs and
its most recent run reads only signal `0`. -/
def condAfterToggle : RS := writeSig 0 (JSVal.vbool false) condSetup

/-- Nested-effect scenario: the outer effect first creates an inner
effect (with an empty body) and only then reads signal `0`. -/
def nestedBody : Body :=
  Body.nest Body.done (Body.read 0 (fun _ => Body.done))

/-- State after creating signal `0` and the outer effect: the read of
signal `0` happens after the inner effect has run. -/
def nestedSetup : RS :=
  createEffect nestedBody (createSignal (JSVal.vnum 0) rs0).1

/-- Unmount scenario: one signal, one effect reading it, created by a
component (whose `_effects` list therefore holds the placeholder dispose
function). -/
def unmountSetup : RS :=
  createEffect (Body.read 0 (fun _ => Body.done)) (createSignal (JSVal.vnum 0) rs0).1

/-- Equality-skip scenario: one signal holding the number `5` with one
subscribed effect. -/
def skipSetup : RS :=
  createEffect (Body.read 0 (fun _ => Body.done)) (createSignal (JSVal.vnum 5) rs0).1

/-- The reconciler scenario: a fresh `v-for` region whose parent
contains only the anchor comment (node `9`); fresh nodes are allocated
from `100`. -/
def recInit : RecState := { children := [9], itemMap := [], nextId := 100, muts := [] }

/-- The key list `[a, b, c]` (keys `10`, `11`, `12`). -/
def keysABC : List Nat := [10, 11, 12]

/-- The region after its first render of `[a, b, c]`: elements `100`,
`101`, `102` before the anchor. -/
def recOnce : RecState := reconcileKeyed recInit keysABC

theorem mem_addSub {l : List Nat} {e : Nat} (c : Nat) (h : e ∈ l) : e ∈ addSub l c := by
  unfold addSub
  split
  · exact h
  · exact List.mem_append_left _ h

theorem mem_updf_addSub (subs : Nat → List Nat) (sid c sid2 e2 : Nat)
    (h : e2 ∈ subs sid2) : e2 ∈ updf subs sid (addSub (subs sid) c) sid2 := by
  unfold updf
  by_cases hs : sid2 = sid
  · subst hs; simp only [if_pos rfl]; exact mem_addSub c h
  · simp only [if_neg hs]; exact h

theorem runBody_frame (b : Body) : ∀ st : RS,
    (runBody b st).vals = st.vals
    ∧ (∃ t, (runBody b st).log = st.log ++ t)
    ∧ (∀ sid e, e ∈ st.subs sid → e ∈ (runBody b st).subs sid) := by
  induction b with
  | done =>
    intro st
    exact ⟨rfl, ⟨[], by simp [runBody]⟩, fun _ _ h => h⟩
  | read sid k ih =>
    intro st
    cases h : st.cur with
    | none =>
      simp only [runBody, h]
      exact ih (st.vals sid) st
    | some e =>
      simp only [runBody, h]
      obtain ⟨hv, ⟨t, ht⟩, hs⟩ :=
        ih (st.vals sid)
          { cur := some e, sigCount := st.sigCount, vals := st.vals,
            subs := updf st.subs sid (addSub (st.subs sid) e),
            effCount := st.effCount, bodies := st.bodies, log := st.log }
      refine ⟨hv, ⟨t, ht⟩, fun sid2 e2 h2 => hs sid2 e2 ?_⟩
      exact mem_updf_addSub st.subs sid e sid2 e2 h2
  | nest inner k ih1 ih2 =>
    intro st
    have hrw : runBody (Body.nest inner k) st = runBody k (spawnEffect inner st) := rfl
    rw [hrw]
    obtain ⟨hv1, ⟨t1, ht1⟩, hs1⟩ :=
      ih1
        { st with effCount := st.effCount + 1, bodies := updf st.bodies st.effCount inner,
                  cur := some st.effCount, log := st.log ++ [st.effCount] }
    obtain ⟨hv2, ⟨t2, ht2⟩, hs2⟩ := ih2 (spawnEffect inner st)
    refine ⟨?_, ⟨st.effCount :: (t1 ++ t2), ?_⟩, ?_⟩
    · rw [hv2]
      show (runBody inner _).vals = st.vals
      rw [hv1]
    · rw [ht2]
      show (runBody inner _).log ++ t2 = st.log ++ st.effCount :: (t1 ++ t2)
      rw [ht1]
      show (st.log ++ [st.effCount]) ++ t1 ++ t2 = st.log ++ st.effCount :: (t1 ++ t2)
      simp
    · intro sid2 e2 h2
      refine hs2 sid2 e2 ?_
      show e2 ∈ (runBody inner _).subs sid2
      exact hs1 sid2 e2 h2

theorem runEffect_frame (eid : Nat) (st : RS) :
    (runEffect eid st).vals = st.vals
    ∧ (∃ t, (runEffect eid st).log = st.log ++ eid :: t)
    ∧ (∀ sid e, e ∈ st.subs sid → e ∈ (runEffect eid st).subs sid) := by
  unfold runEffect
  obtain ⟨hv, ⟨t, ht⟩, hs⟩ :=
    runBody_frame (st.bodies eid) { st with cur := some eid, log := st.log ++ [eid] }
  exact ⟨hv, ⟨t, by rw [ht]; simp⟩, hs⟩

theorem notifyFold_frame (l : List Nat) : ∀ st : RS,
    ((l.foldl (fun s e => runEffect e s) st).vals = st.vals)
    ∧ (∃ t, (l.foldl (fun s e => runEffect e s) st).log = st.log ++ t)
    ∧ (∀ sid e, e ∈ st.subs sid → e ∈ (l.foldl (fun s e => runEffect e s) st).subs sid)
    ∧ (∀ e, e ∈ l →
        ∃ t, (l.foldl (fun s e => runEffect e s) st).log = st.log ++ t ∧ e ∈ t) := by
  induction l with
  | nil =>
    intro st
    exact ⟨rfl, ⟨[], by simp⟩, fun _ _ h => h, fun e h => absurd h (List.not_mem_nil e)⟩
  | cons a rest ih =>
    intro st
    obtain ⟨hv0, ⟨t0, ht0⟩, hs0⟩ := runEffect_frame a st
    obtain ⟨hv, ⟨t, ht⟩, hs, hr⟩ := ih (runEffect a st)
    rw [List.foldl_cons]
    refine ⟨by rw [hv, hv0], ⟨a :: t0 ++ t, by rw [ht, ht0]; simp⟩,
      fun sid e h => hs sid e (hs0 sid e h), ?_⟩
    intro e he
    rcases List.mem_cons.mp he with he | he
    · subst he
      exact ⟨e :: t0 ++ t, by rw [ht, ht0]; simp, List.mem_cons_self _ _⟩
    · obtain ⟨t3, ht3, hm3⟩ := hr e he
      refine ⟨a :: t0 ++ t3, by rw [ht3, ht0]; simp, ?_⟩
      exact List.mem_cons_of_mem _ (List.mem_append_right _ hm3)

theorem unmountReactive_noop : ∀ (ds : List (RS → RS)),
    (∀ d ∈ ds, d = disposeEffect) → ∀ st : RS, unmountReactive ds st = st := by
  intro ds
  induction ds with
  | nil => intro _ st; rfl
  | cons d rest ih =>
    intro hds st
    have hd := hds d (List.mem_cons_self d rest)
    show rest.foldl (fun s f => f s) (d st) = st
    rw [hd]
    exact ih (fun d2 h2 => hds d2 (List.mem_cons_of_mem _ h2)) st

theorem writeSig_notify_eq (st : RS) (sid : Nat) (next : JSVal)
    (hch : isPrimitiveNext next = false ∨ st.vals sid ≠ next) :
    writeSig sid next st =
      (st.subs sid).foldl (fun s e => runEffect e s) { st with vals := updf st.vals sid next } := by
  have hcond : ¬ (isPrimitiveNext next = true ∧ st.vals sid = next) := by
    rcases hch with h | h
    · intro hc; rw [hc.1] at h; cases h
    · exact fun hc => h hc.2
  unfold writeSig
  rw [if_neg hcond]

theorem write_runs_subscriber (st : RS) (sid e : Nat) (next : JSVal)
    (hsub : e ∈ st.subs sid)
    (hch : isPrimitiveNext next = false ∨ st.vals sid ≠ next) :
    ∃ t, (writeSig sid next st).log = st.log ++ t ∧ e ∈ t := by
  rw [writeSig_notify_eq st sid next hch]
  obtain ⟨_, _, _, hr⟩ := notifyFold_frame (st.subs sid) { st with vals := updf st.vals sid next }
  obtain ⟨t, ht, hm⟩ := hr e hsub
  exact ⟨t, ht, hm⟩

/-- Claim C5: writing a primitive value strictly equal to the held value
leaves the signal state entirely unchanged and notifies nobody; writing
a different primitive, or any object/function value (even the same
reference), stores the value and synchronously runs every currently
subscribed effect. -/
theorem signal_write_semantics (st : RS) (sid : Nat) (next : JSVal) :
    (isPrimitiveNext next = true → st.vals sid = next → writeSig sid next st = st)
    ∧ ((isPrimitiveNext next = false ∨ st.vals sid ≠ next) →
        (writeSig sid next st).vals sid = next
        ∧ ∀ e, e ∈ st.subs sid →
            ∃ t, (writeSig sid next st).log = st.log ++ t ∧ e ∈ t) := by
  constructor
  · intro hp he
    unfold writeSig
    rw [if_pos ⟨hp, he⟩]
  · intro hch
    refine ⟨?_, fun e he => write_runs_subscriber st sid e next he hch⟩
    rw [writeSig_notify_eq st sid next hch]
    obtain ⟨hv, _, _, _⟩ := notifyFold_frame (st.subs sid) { st with vals := updf st.vals sid next }
    rw [hv]
    show updf st.vals sid next sid = next
    simp [updf]

/-- Claim C5 witness: on a signal holding the number `5` with one
subscribed effect, re-writing `5` changes nothing, while writing `6` or
an object reference stores the value and runs the subscriber. -/
theorem signal_write_semantics_witness :
    writeSig 0 (JSVal.vnum 5) skipSetup = skipSetup
    ∧ (writeSig 0 (JSVal.vnum 6) skipSetup).vals 0 = JSVal.vnum 6
    ∧ (∃ t, (writeSig 0 (JSVal.vnum 6) skipSetup).log = skipSetup.log ++ t ∧ 0 ∈ t)
    ∧ (writeSig 0 (JSVal.vobj 7) skipSetup).vals 0 = JSVal.vobj 7
    ∧ (∃ t, (writeSig 0 (JSVal.vobj 7) skipSetup).log = skipSetup.log ++ t ∧ 0 ∈ t) := by
  have h5 := signal_write_semantics skipSetup 0 (JSVal.vnum 5)
  have h6 := signal_write_semantics skipSetup 0 (JSVal.vnum 6)
  have h7 := signal_write_semantics skipSetup 0 (JSVal.vobj 7)
  exact ⟨h5.1 (by decide) (by decide),
    (h6.2 (Or.inr (by decide))).1,
    (h6.2 (Or.inr (by decide))).2 0 (by decide),
    (h7.2 (Or.inl (by decide))).1,
    (h7.2 (Or.inl (by decide))).2 0 (by decide)⟩

/-- Claim C2 counterexample: after the conditional effect's most recent
run read only signal `0` (the condition turned false), it is still
subscribed to signal `1`, and writing signal `1` re-runs it — the
run log grows by the effect's id, contradicting the claim that the
write must not re-trigger the effect. -/
theorem effect_retracking_counterexample :
    readsOf condBody condAfterToggle.vals = [0]
    ∧ (writeSig 1 (JSVal.vnum 1) condAfterToggle).log = condAfterToggle.log ++ [0]
    ∧ (writeSig 1 (JSVal.vnum 1) condAfterToggle).log ≠ condAfterToggle.log := by decide

/-- Claim C2 (amended): an effect's dependency set only accumulates —
no run and no write ever removes a subscriber, and a notifying write to
a signal re-runs every effect in its subscriber set, even one whose
most recent run did not read that signal. -/
theorem effect_deps_accumulate (st : RS) (b : Body) (sid e : Nat) (next : JSVal)
    (hsub : e ∈ st.subs sid)
    (hch : isPrimitiveNext next = false ∨ st.vals sid ≠ next) :
    e ∈ (runBody b st).subs sid
    ∧ e ∈ (writeSig sid next st).subs sid
    ∧ ∃ t, (writeSig sid next st).log = st.log ++ t ∧ e ∈ t := by
  refine ⟨(runBody_frame b st).2.2 sid e hsub, ?_,
    write_runs_subscriber st sid e next hsub hch⟩
  rw [writeSig_notify_eq st sid next hch]
  obtain ⟨_, _, hs, _⟩ := notifyFold_frame (st.subs sid) { st with vals := updf st.vals sid next }
  exact hs sid e hsub

/-- Claim C2 (amended) witness: in the conditional scenario the effect
stays subscribed to signal `1` across any run and across the write, and
the write to signal `1` re-runs it. -/
theorem effect_deps_accumulate_witness :
    0 ∈ (runBody condBody condAfterToggle).subs 1
    ∧ 0 ∈ (writeSig 1 (JSVal.vnum 1) condAfterToggle).subs 1
    ∧ ∃ t, (writeSig 1 (JSVal.vnum 1) condAfterToggle).log = condAfterToggle.log ++ t ∧ 0 ∈ t :=
  effect_deps_accumulate condAfterToggle condBody 1 0 (JSVal.vnum 1) (by decide)
    (Or.inr (by decide))

/-- Claim C3 counterexample: the outer effect (id `0`) creates an inner
effect (id `1`) and then reads signal `0`; because the inner effect's
`finally` clause set `_currentEffect` to `null`, that read subscribes
nobody — signal `0`'s subscriber set is empty and a subsequent write to
it re-runs nothing, contradicting the claim that the outer effect's
later reads still subscribe it. -/
theorem nested_context_counterexample :
    nestedSetup.subs 0 = []
    ∧ (writeSig 0 (JSVal.vnum 1) nestedSetup).log = nestedSetup.log
    ∧ nestedSetup.log = [0, 1] := by decide

/-- Claim C3 (amended): when an inner effect created during another
effect's run finishes, the active tracking context is cleared to `null`
rather than restored to the outer effect, and a signal read performed
under a `null` context registers no subscriber at all. -/
theorem nested_effect_clears_context (inner k : Body) (st : RS) (out : Nat)
    (h : st.cur = some out) :
    runBody (Body.nest inner k) st = runBody k (spawnEffect inner st)
    ∧ (spawnEffect inner st).cur = none
    ∧ (spawnEffect inner st).cur ≠ st.cur
    ∧ (∀ (sid : Nat) (k2 : JSVal → Body) (st2 : RS), st2.cur = none →
        runBody (Body.read sid k2) st2 = runBody (k2 (st2.vals sid)) st2) := by
  refine ⟨rfl, rfl, ?_, ?_⟩
  · have hn : (spawnEffect inner st).cur = none := rfl
    rw [hn, h]
    intro hc
    cases hc
  · intro sid k2 st2 h2
    simp only [runBody, h2]

/-- Claim C3 (amended) witness: instantiated at an inner effect with an
empty body created while effect `5` was tracking. -/
theorem nested_effect_clears_context_witness :
    runBody (Body.nest Body.done (Body.read 0 (fun _ => Body.done))) { rs0 with cur := some 5 }
      = runBody (Body.read 0 (fun _ => Body.done))
          (spawnEffect Body.done { rs0 with cur := some 5 })
    ∧ (spawnEffect Body.done { rs0 with cur := some 5 }).cur = none
    ∧ (spawnEffect Body.done { rs0 with cur := some 5 }).cur
        ≠ ({ rs0 with cur := some 5 } : RS).cur := by
  have h := nested_effect_clears_context Body.done (Body.read 0 (fun _ => Body.done))
    { rs0 with cur := some 5 } 5 rfl
  exact ⟨h.1, h.2.1, h.2.2.1⟩

/-- Claim C4 counterexample: a component's only effect reads signal `0`;
running the component's dispose list (`unmount`'s effect cleanup)
changes nothing, and a subsequent write to signal `0` still re-runs the
effect — contradicting the claim that unmount makes the component's
effects permanently inert. -/
theorem unmount_inert_counterexample :
    unmountReactive [disposeEffect] unmountSetup = unmountSetup
    ∧ 0 ∈ unmountSetup.subs 0
    ∧ (writeSig 0 (JSVal.vnum 1) (unmountReactive [disposeEffect] unmountSetup)).log
        = unmountSetup.log ++ [0] := by
  exact ⟨rfl, by decide, by decide⟩

/-- Claim C4 (amended): the dispose functions `createEffect` hands to a
component are no-ops, so running the component's effect-cleanup list
leaves the reactive state unchanged (and is therefore trivially
idempotent), and a later notifying write to a signal still re-runs every
effect that was subscribed to it. -/
theorem unmount_effects_not_inert (ds : List (RS → RS)) (st : RS) (sid e : Nat) (next : JSVal)
    (hds : ∀ d ∈ ds, d = disposeEffect)
    (hsub : e ∈ st.subs sid)
    (hch : isPrimitiveNext next = false ∨ st.vals sid ≠ next) :
    unmountReactive ds st = st
    ∧ unmountReactive ds (unmountReactive ds st) = unmountReactive ds st
    ∧ ∃ t, (writeSig sid next (unmountReactive ds st)).log = st.log ++ t ∧ e ∈ t := by
  have hno := unmountReactive_noop ds hds
  refine ⟨hno st, by rw [hno st]; exact hno st, ?_⟩
  rw [hno st]
  exact write_runs_subscriber st sid e next hsub hch

/-- Claim C4 (amended) witness: instantiated at the single-effect
component scenario. -/
theorem unmount_effects_not_inert_witness :
    unmountReactive [disposeEffect] unmountSetup = unmountSetup
    ∧ unmountReactive [disposeEffect] (unmountReactive [disposeEffect] unmountSetup)
        = unmountReactive [disposeEffect] unmountSetup
    ∧ ∃ t, (writeSig 0 (JSVal.vnum 1) (unmountReactive [disposeEffect] unmountSetup)).log
        = unmountSetup.log ++ t ∧ 0 ∈ t :=
  unmount_effects_not_inert [disposeEffect] unmountSetup 0 0 (JSVal.vnum 1)
    (fun _ hd => List.mem_singleton.mp hd) (by decide) (Or.inr (by decide))

/-- Claim C1: for the table `[{path:'/'}, {path:'/user/:id'}]` and path
`/user/42`, the `src/router.ts` revision of `_matchRoute` returns no
match at all (its childless-leaf acceptance compares the literal pattern
string `'/user/:id'` with the path, which can never be equal once the
pattern contains a parameter marker), while the repository's other
revision of the matcher returns chain `[User]` with params
`{id: '42'}` — the behaviour the claim (and the repository's own
documentation of dynamic routes) describes. -/
theorem route_param_leaf_divergence :
    (matchRouteA routesUser (str "/user/42")).1.map RouteDef.comp = []
    ∧ (matchRouteA routesUser (str "/user/42")).2 = []
    ∧ (matchRouteB routesUser (str "/user/42")).1.map RouteDef.comp = [2]
    ∧ (matchRouteB routesUser (str "/user/42")).2 = [(str "id", str "42")] := by decide

/-- Claim C6: for the table
`[{path:'/admin', children:[{path:'users'}]}]` and path `/admin`, both
revisions of the matcher return no match at all — the parent is pushed,
its children all fail, and it is popped rather than used as a fallback
leaf; the matched chain and the params are empty.  (The same table does
match `/admin/users` with chain `[Admin, AdminUsers]`, so the children
are genuinely reachable.) -/
theorem route_children_no_fallback :
    (matchRouteA routesAdmin (str "/admin")).1.map RouteDef.comp = []
    ∧ (matchRouteA routesAdmin (str "/admin")).2 = []
    ∧ (matchRouteB routesAdmin (str "/admin")).1.map RouteDef.comp = []
    ∧ (matchRouteB routesAdmin (str "/admin")).2 = []
    ∧ (matchRouteB routesAdmin (str "/admin/users")).1.map RouteDef.comp = [1, 2]
    ∧ (matchRouteA routesAdmin (str "/admin/users")).1.map RouteDef.comp = [1, 2] := by decide

/-- Claim C7: re-running the keyed reconciler with the unchanged key
list `[a, b, c]` leaves the child order and the item map unchanged, but
does not produce zero document mutations: the in-place guard
`element.nextSibling !== previousElement.nextSibling` holds for any two
distinct nodes, so `insertBefore` is invoked for every reused item
except the first (here items `b` and `c`), each call detaching and
re-inserting the node at its current position. -/
theorem keyed_rerun_mutation_divergence :
    recOnce.children = [100, 101, 102, 9]
    ∧ (reconcileKeyed recOnce keysABC).children = recOnce.children
    ∧ (reconcileKeyed recOnce keysABC).itemMap = recOnce.itemMap
    ∧ (reconcileKeyed recOnce keysABC).muts.drop recOnce.muts.length
        = [Mut.inserted 101, Mut.inserted 102] := by decide

/-- Claim C8: recomputing the keyed list `[a, b, c]` as `[c, a, b]`
reuses all three rendered elements (the item map still holds the same
node for each key and no fresh node is allocated), performs only
`insertBefore` moves — no removal and no clone-and-walk appears in the
mutation trace — and leaves the document in the new order. -/
theorem keyed_reorder_moves_only :
    (reconcileKeyed recOnce [12, 10, 11]).children = [102, 100, 101, 9]
    ∧ (reconcileKeyed recOnce [12, 10, 11]).itemMap = [(10, 100), (11, 101), (12, 102)]
    ∧ (reconcileKeyed recOnce [12, 10, 11]).muts.drop recOnce.muts.length
        = [Mut.inserted 102, Mut.inserted 100, Mut.inserted 101]
    ∧ (reconcileKeyed recOnce [12, 10, 11]).nextId = recOnce.nextId := by decide

/-- Claim C9: with a registered `beforeEach` hook, a navigation on which
the hook never calls `next` leaves all four router signals unchanged; a
navigation on which the hook calls `next()` commits the pending path
(route, matched chain, params and query are all written from it); and a
navigation on which the hook calls `next(p)` commits nothing, pushes
`p`, and — when the hook lets the re-triggered navigation through — the
committed route is `p`, never the originally requested path. -/
theorem navigation_guard_semantics (dec : Str → Str)
    (matchFn : Str → List RouteDef × List (Str × Str))
    (h : Str → Str → HookAction) (hash p : Str) (st : RouterSig) :
    (h (getCurrentPath hash) st.route = HookAction.stall →
      handleRouteChange dec matchFn (some h) hash st = (st, none))
    ∧ (h (getCurrentPath hash) st.route = HookAction.proceed →
      handleRouteChange dec matchFn (some h) hash st = (commitNav dec matchFn hash st, none))
    ∧ (h (getCurrentPath hash) st.route = HookAction.redirect p →
      handleRouteChange dec matchFn (some h) hash st = (st, some p)
      ∧ (h (getCurrentPath p) st.route = HookAction.proceed →
        navigateTwice dec matchFn (some h) hash st = (commitNav dec matchFn p st, none)
        ∧ (navigateTwice dec matchFn (some h) hash st).1.route = getCurrentPath p)) := by
  refine ⟨?_, ?_, ?_⟩
  · intro ha
    simp only [handleRouteChange, ha]
  · intro ha
    simp only [handleRouteChange, ha]
  · intro ha
    have h1 : handleRouteChange dec matchFn (some h) hash st = (st, some p) := by
      simp only [handleRouteChange, ha]
    refine ⟨h1, fun hp => ?_⟩
    have h2 : navigateTwice dec matchFn (some h) hash st
        = handleRouteChange dec matchFn (some h) p st := by
      unfold navigateTwice
      rw [h1]
    have h3 : handleRouteChange dec matchFn (some h) p st
        = (commitNav dec matchFn p st, none) := by
      simp only [handleRouteChange, hp]
    rw [h2, h3]
    exact ⟨rfl, rfl⟩

/-- The unauthenticated guard of the repository's documentation:
redirect `/admin` to `/login`, let everything else through. -/
def guardW : Str → Str → HookAction := fun dest _ =>
  if dest = str "/admin" then HookAction.redirect (str "/login") else HookAction.proceed

/-- Route table for the guard witness (`Home = 1`, `Login = 3`). -/
def routesW : List RouteDef :=
  [RouteDef.mk (str "/") 1 none, RouteDef.mk (str "/login") 3 none]

/-- Initial router signal state for the guard witness. -/
def rsig0 : RouterSig := { route := str "/", matched := [], params := [], query := [] }

/-- Claim C9 witness: the documentation's guard blocks `/admin`, pushes
`/login`, and the re-triggered navigation commits `/login`. -/
theorem navigation_guard_semantics_witness :
    handleRouteChange (fun s => s) (matchRouteB routesW) (some guardW) (str "/admin") rsig0
      = (rsig0, some (str "/login"))
    ∧ navigateTwice (fun s => s) (matchRouteB routesW) (some guardW) (str "/admin") rsig0
      = (commitNav (fun s => s) (matchRouteB routesW) (str "/login") rsig0, none)
    ∧ (navigateTwice (fun s => s) (matchRouteB routesW) (some guardW) (str "/admin") rsig0).1.route
      = str "/login" := by
  have h := navigation_guard_semantics (fun s => s) (matchRouteB routesW) guardW
    (str "/admin") (str "/login") rsig0
  have hr : guardW (getCurrentPath (str "/admin")) rsig0.route
      = HookAction.redirect (str "/login") := by decide
  have hp2 : guardW (getCurrentPath (str "/login")) rsig0.route = HookAction.proceed := by decide
  have hgp : getCurrentPath (str "/login") = str "/login" := by decide
  obtain ⟨h1, h2⟩ := h.2.2 hr
  obtain ⟨h3, h4⟩ := h2 hp2
  exact ⟨h1, h3, by rw [h4, hgp]⟩

theorem splitOnChar_ne_nil (c : Char) (l : List Char) : splitOnChar c l ≠ [] := by
  cases l with
  | nil => simp [splitOnChar]
  | cons a rest =>
    simp only [splitOnChar]
    split
    · simp
    · split <;> simp

theorem splitOnChar_of_not_mem {c : Char} {l : List Char} (h : c ∉ l) :
    splitOnChar c l = [l] := by
  induction l with
  | nil => rfl
  | cons a rest ih =>
    have hr : c ∉ rest := fun m => h (List.mem_cons_of_mem _ m)
    have ha : a ≠ c := fun e => h (e ▸ List.mem_cons_self a rest)
    simp only [splitOnChar, ih hr]
    rw [if_neg ha]

theorem lookupQ_setKey (m : List (Str × Str)) (k v K : Str) :
    lookupQ (setKey m k v) K = if K = k then some v else lookupQ m K := by
  induction m with
  | nil =>
    show (if k = K then some v else none) = if K = k then some v else none
    by_cases h : K = k
    · subst h; simp
    · rw [if_neg (fun hh => h hh.symm), if_neg h]
  | cons kv rest ih =>
    simp only [setKey]
    by_cases h1 : kv.1 = k
    · rw [if_pos h1]
      show (if k = K then some v else lookupQ rest K) = _
      by_cases h2 : K = k
      · subst h2; rw [if_pos rfl, if_pos rfl]
      · rw [if_neg (fun hh => h2 hh.symm), if_neg h2]
        show lookupQ rest K = lookupQ (kv :: rest) K
        simp only [lookupQ]
        rw [if_neg (fun hh : kv.1 = K => h2 (hh ▸ h1))]
    · rw [if_neg h1]
      show (if kv.1 = K then some kv.2 else lookupQ (setKey rest k v) K) = _
      by_cases h3 : kv.1 = K
      · have hK : ¬ K = k := fun e => h1 (h3.trans e)
        rw [if_pos h3, if_neg hK]
        show some kv.2 = lookupQ (kv :: rest) K
        simp only [lookupQ]
        rw [if_pos h3]
      · rw [if_neg h3, ih]
        by_cases h4 : K = k
        · rw [if_pos h4, if_pos h4]
        · rw [if_neg h4, if_neg h4]
          show lookupQ rest K = lookupQ (kv :: rest) K
          simp only [lookupQ]
          rw [if_neg h3]

theorem lookupQ_queryStep (dec : Str → Str) (acc : List (Str × Str)) (p K : Str) :
    lookupQ (queryStep dec acc p) K =
      if pairKey dec p = some K then some (pairVal dec p) else lookupQ acc K := by
  by_cases hk : (splitOnChar '=' p).headD [] = []
  · have h1 : queryStep dec acc p = acc := by
      show (if (splitOnChar '=' p).headD [] = [] then acc
        else setKey acc (dec ((splitOnChar '=' p).headD []))
          (dec (((splitOnChar '=' p).get? 1).getD []))) = acc
      rw [if_pos hk]
    have h2 : pairKey dec p = none := by
      show (if (splitOnChar '=' p).headD [] = [] then none
        else some (dec ((splitOnChar '=' p).headD []))) = none
      rw [if_pos hk]
    rw [h1, h2]
    rw [if_neg (fun hh : (none : Option Str) = some K => Option.noConfusion hh)]
  · have h1 : queryStep dec acc p
        = setKey acc (dec ((splitOnChar '=' p).headD []))
            (dec (((splitOnChar '=' p).get? 1).getD [])) := by
      show (if (splitOnChar '=' p).headD [] = [] then acc
        else setKey acc (dec ((splitOnChar '=' p).headD []))
          (dec (((splitOnChar '=' p).get? 1).getD []))) = _
      rw [if_neg hk]
    have h2 : pairKey dec p = some (dec ((splitOnChar '=' p).headD [])) := by
      show (if (splitOnChar '=' p).headD [] = [] then none
        else some (dec ((splitOnChar '=' p).headD []))) = _
      rw [if_neg hk]
    rw [h1, h2, lookupQ_setKey]
    rw [show pairVal dec p = dec (((splitOnChar '=' p).get? 1).getD []) from rfl]
    by_cases h3 : K = dec ((splitOnChar '=' p).headD [])
    · rw [if_pos h3, if_pos (by rw [h3])]
    · rw [if_neg h3, if_neg (fun hh => h3 (Option.some.inj hh).symm)]

theorem foldl_queryStep_lookup (dec : Str → Str) (K : Str) :
    ∀ (pairs : List Str) (acc : List (Str × Str)),
      lookupQ (pairs.foldl (queryStep dec) acc) K =
        match lastBinding dec K pairs with
        | some v => some v
        | none => lookupQ acc K := by
  intro pairs
  induction pairs with
  | nil => intro acc; rfl
  | cons p rest ih =>
    intro acc
    rw [List.foldl_cons, ih]
    simp only [lastBinding]
    cases h : lastBinding dec K rest with
    | some v => rfl
    | none =>
      rw [lookupQ_queryStep]
      by_cases hp : pairKey dec p = some K
      · rw [if_pos hp, if_pos hp]
      · rw [if_neg hp, if_neg hp]

/-- Claim C10: when the location fragment has a non-empty query part,
looking any key up in the parsed query yields the value contributed by
the last `&`-separated pair whose (decoded) key equals it — later pairs
overwrite earlier ones, and a pair whose raw key is empty contributes no
binding at all (its `pairKey` is `none`, so no `K` selects it); a pair
containing no `=` contributes the empty string as its value. -/
theorem query_parse_semantics (dec : Str → Str) (hdec : dec [] = [])
    (hash qp : Str) (hq : (splitOnChar '?' hash).get? 1 = some qp) (hne : qp ≠ []) :
    (∀ K, lookupQ (getCurrentQuery dec hash) K = lastBinding dec K (splitOnChar '&' qp))
    ∧ (∀ p : Str, '=' ∉ p → pairVal dec p = [])
    ∧ (∀ p : Str, p.headD '&' = '=' ∨ p = [] → pairKey dec p = none) := by
  refine ⟨?_, ?_, ?_⟩
  · intro K
    have h1 : getCurrentQuery dec hash = (splitOnChar '&' qp).foldl (queryStep dec) [] := by
      unfold getCurrentQuery
      rw [hq]
      show (if qp = [] then [] else (splitOnChar '&' qp).foldl (queryStep dec) []) = _
      rw [if_neg hne]
    rw [h1, foldl_queryStep_lookup]
    cases lastBinding dec K (splitOnChar '&' qp) with
    | some v => rfl
    | none => rfl
  · intro p hp
    unfold pairVal
    rw [splitOnChar_of_not_mem hp]
    exact hdec
  · intro p hp
    rcases hp with hp | hp
    · cases p with
      | nil => simp at hp
      | cons a rest =>
        have ha : a = '=' := hp
        subst ha
        unfold pairKey
        simp only [splitOnChar]
        cases h : splitOnChar '=' rest with
        | nil => exact absurd h (splitOnChar_ne_nil '=' rest)
        | cons y ys => simp
    · subst hp
      rfl

/-- Claim C10 witness: parsing `#p?a=1&b&a=3&=x&a` with the identity
decode function — `a` gets its last occurrence's value (the final pair
`a`, which has no `=`, so the empty string), `b` (no `=`) maps to the
empty string, and the empty-keyed pair `=x` binds nothing. -/
theorem query_parse_semantics_witness :
    lookupQ (getCurrentQuery (fun s => s) (str "p?a=1&b&a=3&=x&a")) (str "a")
      = lastBinding (fun s => s) (str "a") (splitOnChar '&' (str "a=1&b&a=3&=x&a"))
    ∧ lookupQ (getCurrentQuery (fun s => s) (str "p?a=1&b&a=3&=x&a")) (str "a") = some []
    ∧ lookupQ (getCurrentQuery (fun s => s) (str "p?a=1&b&a=3&=x&a")) (str "b") = some []
    ∧ lookupQ (getCurrentQuery (fun s => s) (str "p?a=1&b&a=3&=x&a")) [] = none
    ∧ pairVal (fun s => s) (str "b") = []
    ∧ pairKey (fun s => s) (str "=x") = none := by
  have h := query_parse_semantics (fun s => s) rfl (str "p?a=1&b&a=3&=x&a")
    (str "a=1&b&a=3&=x&a") (by decide) (by decide)
  exact ⟨h.1 (str "a"), by decide, by decide, by decide,
    h.2.1 (str "b") (by decide), h.2.2 (str "=x") (by decide)⟩
